import Mathlib

/-!
Verification of the LOE Lviv outages schedule core
(`custom_components/loe_outages/api/loe_api.py`,
`custom_components/loe_outages/api/models.py`,
`custom_components/loe_outages/coordinator.py`) against its
natural-language specification.

Shallow embedding conventions:
* A calendar date (`datetime.date`) is an integer day number in `ℤ`.
* A timezone-aware `datetime.datetime` carrying the uniform `Europe/Kiev`
  zone is represented by its wall-clock minute count in `ℤ`
  (`1440 * day + minute-of-day`).  Every datetime the code builds carries
  the same `ZoneInfo("Europe/Kiev")`, so Python's aware-datetime comparison
  coincides with wall-clock comparison for the instants involved.
* A raw `"HH:MM"` string captured by `TIME_RANGE_PATTERN`
  (`з (\d{2}:\d{2}) до (\d{2}:\d{2})`) always consists of exactly two
  digits, a colon, and two digits; it is embedded as the numeric pair
  `TimeHM` of its two two-digit fields.  For such strings, equality with
  the sentinel string `"24:00"` is exactly `hh = 24 ∧ mm = 0`.
* Python `dict` state is an association list with overwriting assignment
  (`dictSet`) and first-match lookup (`dictGet`).
* Fallible Python code (`ValueError` from `datetime.time`, caught and
  skipped per range) is embedded with `Option`.
-/

/-- Outage event types (`models.py`): a single variant `DEFINITE`. -/
inductive OutageEventType where
  | definite
deriving DecidableEq, Repr

/-- An outage event (`models.py` `OutageEvent`): frozen dataclass with an
event type, a start datetime and an end datetime.  The Python field `end`
is a Lean keyword, hence `end_`. -/
structure OutageEvent where
  event_type : OutageEventType
  start : ℤ
  end_ : ℤ
deriving DecidableEq, Repr

/-- A raw `"HH:MM"` string as captured by `TIME_RANGE_PATTERN`: its
two-digit hour field and two-digit minute field. -/
structure TimeHM where
  hh : ℕ
  mm : ℕ
deriving DecidableEq, Repr

/-- Lookup in a Python dict modelled as an association list
(`group in d` / `d[group]`). -/
def dictGet {V : Type} (d : List (String × V)) (k : String) : Option V :=
  match d with
  | [] => none
  | (k', v) :: rest => if k' = k then some v else dictGet rest k

/-- Assignment `d[k] = v` on a Python dict modelled as an association
list: overwrite the existing binding, else append. -/
def dictSet {V : Type} (d : List (String × V)) (k : String) (v : V) :
    List (String × V) :=
  match d with
  | [] => [(k, v)]
  | (k', v') :: rest =>
      if k' = k then (k, v) :: rest else (k', v') :: dictSet rest k v

/-- A `menuItems` entry of the JSON document: holds a `rawHtml` string
(a missing `rawHtml` key is `.get`-defaulted to the empty string). -/
structure MenuItem where
  rawHtml : String
deriving DecidableEq, Repr

/-- One element of the `"hydra:member"` array: holds a `menuItems` list
(a missing `menuItems` key is `.get`-defaulted to the empty list). -/
structure MenuHolder where
  menuItems : List MenuItem
deriving DecidableEq, Repr

/-- The JSON document returned by the endpoint.  `emptyDoc` stands for a
parsed document that is falsy in Python (`{}`); `doc ms` is a truthy
object whose `"hydra:member"` value (defaulted to `[]` when the key is
missing) is `ms`.  Only well-typed shapes (lists of objects) are
modelled; the claims under verification concern only these. -/
inductive RawData where
  | emptyDoc
  | doc (members : List MenuHolder)
deriving DecidableEq, Repr

/-- The mutable state of `LoeApi` (`loe_api.py` `__init__`): configured
group, last raw JSON document, extracted schedule text, parsed schedule
date, parsed update timestamp, and the per-group raw time-range dict. -/
structure LoeApi where
  group : Option String
  raw_data : Option RawData
  schedule_text : Option String
  schedule_date : Option ℤ
  updated_on : Option ℤ
  group_schedules : List (String × List (TimeHM × TimeHM))
deriving DecidableEq, Repr

/-- The `LoeApi.__init__` state: everything absent, dict empty. -/
def LoeApi.fresh (group : Option String) : LoeApi :=
  { group := group
    raw_data := none
    schedule_text := none
    schedule_date := none
    updated_on := none
    group_schedules := [] }

/-- Truthiness of `self.group` (`if not self.group`): `None` and the
empty string are falsy. -/
def groupTruthy (g : Option String) : Bool :=
  match g with
  | none => false
  | some s => s ≠ ""

/-- `_time_str_to_minutes`: `hours * 60 + minutes` for the two fields of
a two-digit `"HH:MM"` string. -/
def time_str_to_minutes (t : TimeHM) : ℕ :=
  t.hh * 60 + t.mm

/-- `_minutes_to_datetime`: minutes from start of day to a
`Europe/Kiev`-zoned datetime.  `hours == 24` (minutes 1440..1499) maps to
midnight of the next day, discarding the minute remainder; hours 0..23
combine with the base date; larger hour values make `datetime.time`
raise `ValueError`, embedded as `none`. -/
def minutes_to_datetime (minutes : ℕ) (date : ℤ) : Option ℤ :=
  let hours := minutes / 60
  let mins := minutes % 60
  if hours = 24 then
    some (1440 * (date + 1))
  else if hours ≤ 23 then
    some (1440 * date + (hours * 60 + mins))
  else
    none

/-- The loop body of `get_events_for_group` for one raw
`(start_str, end_str)` pair: convert both to minutes, apply the
midnight-crossing rule (`end_minutes < start_minutes or
end_str == "24:00"` forces `end_minutes = 1440`), resolve both ends to
datetimes, and build a `DEFINITE` event; a `ValueError` anywhere skips
the range (`none`). -/
def resolve_range (date : ℤ) (p : TimeHM × TimeHM) : Option OutageEvent :=
  let start_minutes := time_str_to_minutes p.1
  let end_minutes0 := time_str_to_minutes p.2
  let end_minutes :=
    if end_minutes0 < start_minutes ∨ (p.2.hh = 24 ∧ p.2.mm = 0) then 1440
    else end_minutes0
  match minutes_to_datetime start_minutes date,
        minutes_to_datetime end_minutes date with
  | some s, some e => some ⟨OutageEventType.definite, s, e⟩
  | _, _ => none

/-- `get_events_for_group`: empty when the schedule date is absent or the
group has no entry in `group_schedules`; otherwise resolve each raw
range (skipping failures) and sort ascending by start
(`sorted(events, key=lambda e: e.start)`). -/
def get_events_for_group (api : LoeApi) (group : String) :
    List OutageEvent :=
  match api.schedule_date with
  | none => []
  | some d =>
      match dictGet api.group_schedules group with
      | none => []
      | some time_ranges =>
          (time_ranges.filterMap (resolve_range d)).mergeSort
            (fun a b => decide (a.start ≤ b.start))

/-- `get_current_event`: absent when the group is unset; otherwise the
first event (in the sorted order) with `start <= at < end`. -/
def get_current_event (api : LoeApi) (t : ℤ) : Option OutageEvent :=
  match api.group with
  | none => none
  | some g =>
      if g = "" then none
      else
        (get_events_for_group api g).find?
          (fun e => decide (e.start ≤ t) && decide (t < e.end_))

/-- `get_next_event`: absent when the group is unset; otherwise the first
event with `start > at`. -/
def get_next_event (api : LoeApi) (t : ℤ) : Option OutageEvent :=
  match api.group with
  | none => none
  | some g =>
      if g = "" then none
      else
        (get_events_for_group api g).find? (fun e => decide (t < e.start))

/-- `get_events_between`: empty when the group is unset; otherwise filter
the group's events by the four-way boundary test of the source. -/
def get_events_between (api : LoeApi) (start_date end_date : ℤ) :
    List OutageEvent :=
  match api.group with
  | none => []
  | some g =>
      if g = "" then []
      else
        (get_events_for_group api g).filter
          (fun e =>
            (decide (start_date ≤ e.start) && decide (e.start ≤ end_date)) ||
            (decide (start_date ≤ e.end_) && decide (e.end_ ≤ end_date)) ||
            (decide (e.start ≤ start_date) && decide (start_date ≤ e.end_)) ||
            (decide (e.start ≤ end_date) && decide (end_date ≤ e.end_)))

/-- Whitespace characters of Python's `\s` class (ASCII range), used by
the `re.sub(r"\s+", " ", ...)` normalization. -/
def isPySpace (c : Char) : Bool :=
  c = ' ' ∨ c = '\t' ∨ c = '\n' ∨ c = '\x0d' ∨ c = '\x0b' ∨ c = '\x0c'

/-- The tag-stripping pass `re.sub(r"<[^>]+>", " ", raw_html)`: each
leftmost maximal span `<...>` with at least one non-`>` character inside
is replaced by a single space; a `<` that opens no such span is kept. -/
def stripTagsAux (l : List Char) : List Char :=
  match l with
  | [] => []
  | c :: rest =>
      if c = '<' then
        let content := rest.takeWhile (fun c' => c' ≠ '>')
        if content ≠ [] ∧ content.length < rest.length then
          ' ' :: stripTagsAux (rest.drop (content.length + 1))
        else
          '<' :: stripTagsAux rest
      else
        c :: stripTagsAux rest
termination_by l.length
decreasing_by
  · simp only [List.length_drop, List.length_cons]
    omega
  · simp
  · simp

/-- The entity-decoding step `html.unescape`.  None of the verified
claims concerns entity content, and on entity-free text (in particular
the empty string) `html.unescape` is the identity, so it is embedded as
the identity on the character list. -/
def unescapeChars (l : List Char) : List Char := l

/-- The whitespace-collapsing pass `re.sub(r"\s+", " ", text)`: each
maximal run of whitespace becomes a single space. -/
def collapseWsAux (l : List Char) : List Char :=
  match l with
  | [] => []
  | c :: rest =>
      if isPySpace c then
        ' ' :: collapseWsAux (rest.dropWhile isPySpace)
      else
        c :: collapseWsAux rest
termination_by l.length
decreasing_by
  · have h := (@List.dropWhile_sublist _ rest isPySpace).length_le
    simp only [List.length_cons]
    omega
  · simp

/-- Python `str.strip()`: drop leading and trailing whitespace. -/
def pyStrip (l : List Char) : List Char :=
  ((l.dropWhile isPySpace).reverse.dropWhile isPySpace).reverse

/-- The full text normalization of `_extract_schedule_text`: strip tags,
decode entities, collapse whitespace, trim. -/
def normalizeHtml (s : String) : String :=
  String.mk (pyStrip (collapseWsAux (unescapeChars (stripTagsAux s.data))))

/-- Truthiness of `self.raw_data` (`if self.raw_data:`): `None` and an
empty JSON object are falsy. -/
def rawTruthy (r : Option RawData) : Bool :=
  match r with
  | none => false
  | some RawData.emptyDoc => false
  | some (RawData.doc _) => true

/-- Truthiness of `self.schedule_text` (`if self.schedule_text:`):
`None` and the empty string are falsy. -/
def textTruthy (t : Option String) : Bool :=
  match t with
  | none => false
  | some s => s ≠ ""

/-- `_extract_schedule_text`: return immediately when `raw_data` is
falsy; otherwise walk `"hydra:member"[0].menuItems[0].rawHtml` and, when
every step is present, store the normalized text into `schedule_text`;
when a list on the path is empty, fall through without touching any
field. -/
def extract_schedule_text (api : LoeApi) : LoeApi :=
  match api.raw_data with
  | none => api
  | some RawData.emptyDoc => api
  | some (RawData.doc members) =>
      match members with
      | [] => api
      | m0 :: _ =>
          match m0.menuItems with
          | [] => api
          | item0 :: _ =>
              { api with schedule_text := some (normalizeHtml item0.rawHtml) }

/-- The outcome of the three independent regex extractions of
`_parse_schedule_text` over one normalized text: the `DATE_PATTERN`
match with its `strptime` result (`none` on no match or format failure),
the `UPDATE_PATTERN` match with its zoned `strptime` result, and the
`GROUP_PATTERN` `finditer` matches in text order, each with the
`TIME_RANGE_PATTERN` matches of its trailing text in order.  The regex
engine itself is host-runtime code; the parse loop is modelled over its
match sequence. -/
structure ScanResult where
  schedule_date : Option ℤ
  updated_on : Option ℤ
  groups : List (String × List (TimeHM × TimeHM))

/-- The group-schedule loop of `_parse_schedule_text`: starting from the
freshly reset `self.group_schedules = {}`, execute
`self.group_schedules[group_num] = time_ranges` for each `GROUP_PATTERN`
match in text order. -/
def parse_group_schedules (ms : List (String × List (TimeHM × TimeHM))) :
    List (String × List (TimeHM × TimeHM)) :=
  ms.foldl (fun acc m => dictSet acc m.1 m.2) []

/-- `_parse_schedule_text`: return immediately when `schedule_text` is
falsy; otherwise overwrite `schedule_date`, `updated_on` (each `none` on
a failed match or parse) and rebuild `group_schedules` from the group
matches.  `scan` supplies the regex-match outcomes for the text. -/
def parse_schedule_text (scan : String → ScanResult) (api : LoeApi) :
    LoeApi :=
  match api.schedule_text with
  | none => api
  | some txt =>
      if txt = "" then api
      else
        let r := scan txt
        { api with
            schedule_date := r.schedule_date
            updated_on := r.updated_on
            group_schedules := parse_group_schedules r.groups }

/-- Transport-level outcome of `_get_data`: a caught
`aiohttp.ClientError` (timeouts, connection errors, and the non-2xx
`raise_for_status` all raise `ClientError` subclasses) makes it return
`None`; a plain `asyncio.TimeoutError` from the total timeout is not a
`ClientError` and propagates out of `fetch_schedule_data` before the
`self.raw_data` assignment; otherwise the parsed JSON document is
returned. -/
inductive FetchOutcome where
  | clientError
  | timeoutError
  | ok (rd : RawData)
deriving DecidableEq

/-- The value `_get_data` returns for a non-propagating outcome. -/
def get_data (oc : FetchOutcome) : Option RawData :=
  match oc with
  | FetchOutcome.clientError => none
  | FetchOutcome.timeoutError => none
  | FetchOutcome.ok rd => some rd

/-- `fetch_schedule_data`: on a propagating timeout nothing is assigned;
otherwise `self.raw_data` is assigned the `_get_data` result, then when
it is truthy the text is extracted, and when the text is truthy the text
is parsed. -/
def fetch_schedule_data (scan : String → ScanResult) (api : LoeApi)
    (oc : FetchOutcome) : LoeApi :=
  match oc with
  | FetchOutcome.timeoutError => api
  | _ =>
      let api1 := { api with raw_data := get_data oc }
      if rawTruthy api1.raw_data then
        let api2 := extract_schedule_text api1
        if textTruthy api2.schedule_text then
          parse_schedule_text scan api2
        else
          api2
      else
        api1

/-- Modelled from the spec: `merge_consecutive_outages` lives in
`custom_components/loe_outages/helpers.py`, which is not under `src/`
(only its callers in `coordinator.py` and `calendar.py` are).  Per the
spec's Merge Engine section: given a start-sorted sequence of
`OutageEvent`s, coalesce consecutive events into single events when one
event's end instant equals the next event's start instant (no gap) and
both share the same kind; non-adjacent or differently-kinded neighbors
remain separate; a new sequence is produced. -/
def merge_consecutive_outages (events : List OutageEvent) :
    List OutageEvent :=
  match events with
  | [] => []
  | [e] => [e]
  | e1 :: e2 :: rest =>
      if e1.end_ = e2.start ∧ e1.event_type = e2.event_type then
        merge_consecutive_outages (⟨e1.event_type, e1.start, e2.end_⟩ :: rest)
      else
        e1 :: merge_consecutive_outages (e2 :: rest)
termination_by events.length
decreasing_by
  · simp
  · simp

/-! Arithmetic facts about the interval resolver. -/

/-- Normal form of `minutes_to_datetime`: on the hours-0..23 branch the
recombination `hours * 60 + mins` equals the minute count itself. -/
theorem minutes_to_datetime_eq (m : ℕ) (d : ℤ) :
    minutes_to_datetime m d =
      if m / 60 = 24 then some (1440 * (d + 1))
      else if m / 60 ≤ 23 then some ((1440 : ℤ) * d + m) else none := by
  simp only [minutes_to_datetime]
  split_ifs <;> first
    | rfl
    | (congr 1; push_cast; omega)

theorem minutes_to_datetime_le {m : ℕ} {d : ℤ} {x : ℤ}
    (h : minutes_to_datetime m d = some x) : x ≤ 1440 * (d + 1) := by
  rw [minutes_to_datetime_eq] at h
  split_ifs at h with h1 h2 <;> (simp_all; try omega)

theorem minutes_to_datetime_mono {m m' : ℕ} {d : ℤ} {x y : ℤ}
    (hmm : m ≤ m') (hx : minutes_to_datetime m d = some x)
    (hy : minutes_to_datetime m' d = some y) : x ≤ y := by
  rw [minutes_to_datetime_eq] at hx hy
  split_ifs at hx hy <;> simp_all <;> omega

theorem resolve_range_start_le_end {d : ℤ} {p : TimeHM × TimeHM}
    {e : OutageEvent} (h : resolve_range d p = some e) :
    e.start ≤ e.end_ := by
  by_cases hc :
      time_str_to_minutes p.2 < time_str_to_minutes p.1 ∨
        (p.2.hh = 24 ∧ p.2.mm = 0)
  · simp only [resolve_range, if_pos hc] at h
    split at h
    · rename_i s e2 hs he2
      cases h
      have h1 := minutes_to_datetime_le hs
      rw [minutes_to_datetime_eq] at he2
      norm_num at he2
      simp only []
      omega
    · cases h
  · simp only [resolve_range, if_neg hc] at h
    split at h
    · rename_i s e2 hs he2
      cases h
      rw [not_or] at hc
      exact minutes_to_datetime_mono (Nat.le_of_not_lt hc.1) hs he2
    · cases h

/-! Facts about the per-group event list. -/

/-- Unfolding `get_events_for_group` on a populated snapshot. -/
theorem get_events_for_group_eq {api : LoeApi} {g : String} {d : ℤ}
    {trs : List (TimeHM × TimeHM)} (hd : api.schedule_date = some d)
    (ht : dictGet api.group_schedules g = some trs) :
    get_events_for_group api g =
      (trs.filterMap (resolve_range d)).mergeSort
        (fun a b => decide (a.start ≤ b.start)) := by
  unfold get_events_for_group
  rw [hd, ht]

/-- Every event the resolver emits for a group has `start ≤ end`. -/
theorem start_le_end_of_mem {api : LoeApi} {g : String} {e : OutageEvent}
    (h : e ∈ get_events_for_group api g) : e.start ≤ e.end_ := by
  unfold get_events_for_group at h
  split at h
  · cases h
  · split at h
    · cases h
    · rw [List.mem_mergeSort] at h
      obtain ⟨p, _, hres⟩ := List.mem_filterMap.mp h
      exact resolve_range_start_le_end hres

/-- Sorting by start with `mergeSort` yields a start-sorted list. -/
theorem sorted_mergeSort_start (l : List OutageEvent) :
    (l.mergeSort (fun a b => decide (a.start ≤ b.start))).Sorted
      (fun a b => a.start ≤ b.start) := by
  have h := @List.sorted_mergeSort OutageEvent
    (fun a b : OutageEvent => decide (a.start ≤ b.start))
    (fun a b c h1 h2 => by
      simp only [decide_eq_true_eq] at h1 h2 ⊢
      omega)
    (fun a b => by
      simp only [Bool.or_eq_true, decide_eq_true_eq]
      omega)
    l
  exact h.imp (fun hab => by simpa using hab)

/-- The event list of a group is sorted ascending by start. -/
theorem sorted_get_events_for_group (api : LoeApi) (g : String) :
    (get_events_for_group api g).Sorted (fun a b => a.start ≤ b.start) := by
  unfold get_events_for_group
  split
  · exact List.sorted_nil
  · split
    · exact List.sorted_nil
    · exact sorted_mergeSort_start _

/-- A `find?` hit on a start-sorted list has minimal start among all
elements satisfying the predicate. -/
theorem find?_min_start {l : List OutageEvent} {p : OutageEvent → Bool}
    {e : OutageEvent} (hs : l.Sorted (fun a b => a.start ≤ b.start))
    (h : l.find? p = some e) :
    ∀ e' ∈ l, p e' = true → e.start ≤ e'.start := by
  induction l with
  | nil => cases h
  | cons a l ih =>
      rw [List.sorted_cons] at hs
      by_cases hpa : p a
      · rw [List.find?_cons_of_pos _ hpa] at h
        cases h
        intro e' he' _
        rcases List.mem_cons.mp he' with rfl | hmem
        · exact le_refl _
        · exact hs.1 e' hmem
      · rw [List.find?_cons_of_neg _ (by simpa using hpa)] at h
        intro e' he' hpe'
        rcases List.mem_cons.mp he' with rfl | hmem
        · exact absurd hpe' (by simpa using hpa)
        · exact ih hs.2 h e' hmem hpe'

/-- Unfolding `get_current_event` when a non-empty group is configured. -/
theorem get_current_event_eq {api : LoeApi} {g : String}
    (hg : api.group = some g) (hne : g ≠ "") (t : ℤ) :
    get_current_event api t =
      (get_events_for_group api g).find?
        (fun e => decide (e.start ≤ t) && decide (t < e.end_)) := by
  unfold get_current_event
  rw [hg]
  simp [hne]

/-- Unfolding `get_next_event` when a non-empty group is configured. -/
theorem get_next_event_eq {api : LoeApi} {g : String}
    (hg : api.group = some g) (hne : g ≠ "") (t : ℤ) :
    get_next_event api t =
      (get_events_for_group api g).find? (fun e => decide (t < e.start)) := by
  unfold get_next_event
  rw [hg]
  simp [hne]

/-- Unfolding `get_events_between` when a non-empty group is configured. -/
theorem get_events_between_eq {api : LoeApi} {g : String}
    (hg : api.group = some g) (hne : g ≠ "") (a b : ℤ) :
    get_events_between api a b =
      (get_events_for_group api g).filter
        (fun e =>
          (decide (a ≤ e.start) && decide (e.start ≤ b)) ||
          (decide (a ≤ e.end_) && decide (e.end_ ≤ b)) ||
          (decide (e.start ≤ a) && decide (a ≤ e.end_)) ||
          (decide (e.start ≤ b) && decide (b ≤ e.end_))) := by
  unfold get_events_between
  rw [hg]
  simp [hne]

/-- C2: with the group configured (non-empty) and a schedule date parsed,
`get_current_event at` returns an event with `start ≤ at < end` iff the
group's resolved event list contains one, and the returned event is such
an event of minimal start (the first in ascending start order) — never
two, since the scan stops at the first hit. -/
theorem get_current_event_spec (api : LoeApi) (g : String) (d t : ℤ)
    (hg : api.group = some g) (hne : g ≠ "")
    (_hd : api.schedule_date = some d) :
    ((get_current_event api t).isSome ↔
      ∃ e ∈ get_events_for_group api g, e.start ≤ t ∧ t < e.end_) ∧
    (∀ e, get_current_event api t = some e →
      e ∈ get_events_for_group api g ∧ e.start ≤ t ∧ t < e.end_ ∧
      ∀ e' ∈ get_events_for_group api g, e'.start ≤ t → t < e'.end_ →
        e.start ≤ e'.start) := by
  have hq := get_current_event_eq hg hne t
  constructor
  · rw [hq, List.find?_isSome]
    constructor
    · rintro ⟨x, hx, hpx⟩
      simp only [Bool.and_eq_true, decide_eq_true_eq] at hpx
      exact ⟨x, hx, hpx⟩
    · rintro ⟨x, hx, h1, h2⟩
      exact ⟨x, hx, by simp [h1, h2]⟩
  · intro e he
    rw [hq] at he
    have hmem := List.mem_of_find?_eq_some he
    have hpe := List.find?_some he
    simp only [Bool.and_eq_true, decide_eq_true_eq] at hpe
    refine ⟨hmem, hpe.1, hpe.2, ?_⟩
    intro e' he' h1 h2
    exact find?_min_start (sorted_get_events_for_group api g) he e' he'
      (by simp [h1, h2])

/-- C3: with the group configured (non-empty) and `a ≤ b`,
`get_events_between a b` contains exactly the group events intersecting
the closed range `[a, b]` (neither entirely before `a` nor entirely
after `b`; boundary touches included), and is sorted ascending by
start. -/
theorem get_events_between_spec (api : LoeApi) (g : String) (a b : ℤ)
    (hg : api.group = some g) (hne : g ≠ "") (hab : a ≤ b) :
    (∀ e, e ∈ get_events_between api a b ↔
      e ∈ get_events_for_group api g ∧ ¬ (e.end_ < a) ∧ ¬ (b < e.start)) ∧
    (get_events_between api a b).Sorted (fun x y => x.start ≤ y.start) := by
  have hq := get_events_between_eq hg hne a b
  constructor
  · intro e
    rw [hq, List.mem_filter]
    constructor
    · rintro ⟨hm, hp⟩
      have hse := start_le_end_of_mem hm
      simp only [Bool.or_eq_true, Bool.and_eq_true, decide_eq_true_eq] at hp
      rcases hp with ((⟨h1, h2⟩ | ⟨h1, h2⟩) | ⟨h1, h2⟩) | ⟨h1, h2⟩ <;>
        exact ⟨hm, by omega, by omega⟩
    · rintro ⟨hm, h1, h2⟩
      have hse := start_le_end_of_mem hm
      refine ⟨hm, ?_⟩
      simp only [Bool.or_eq_true, Bool.and_eq_true, decide_eq_true_eq]
      rcases le_or_lt a e.start with hc | hc
      · exact Or.inl (Or.inl (Or.inl ⟨hc, by omega⟩))
      · exact Or.inl (Or.inr ⟨le_of_lt hc, by omega⟩)
  · rw [hq]
    exact List.Pairwise.filter _ (sorted_get_events_for_group api g)

/-- The event list is empty whenever the schedule date is unknown or the
group has no entry in the parsed snapshot. -/
theorem get_events_for_group_empty {api : LoeApi} {g : String}
    (hor : api.schedule_date = none ∨ dictGet api.group_schedules g = none) :
    get_events_for_group api g = [] := by
  rcases hor with h1 | h1
  · simp [get_events_for_group, h1]
  · cases hd : api.schedule_date
    · simp [get_events_for_group, hd]
    · simp [get_events_for_group, hd, h1]

/-- C6: every query operation returns absent or the empty sequence when
the group is unset (absent or empty string), or the group identifier has
no entry in the snapshot, or the schedule date is unknown; the embedded
operations are total functions, so no exception is raised. -/
theorem queries_degrade (api : LoeApi)
    (h : api.group = none ∨ api.group = some "" ∨
      ∃ g, api.group = some g ∧
        (api.schedule_date = none ∨ dictGet api.group_schedules g = none)) :
    ∀ t a b : ℤ,
      get_current_event api t = none ∧ get_next_event api t = none ∧
      get_events_between api a b = [] := by
  intro t a b
  rcases h with h | h | ⟨g, hg, hor⟩
  · simp [get_current_event, get_next_event, get_events_between, h]
  · simp [get_current_event, get_next_event, get_events_between, h]
  · have he := get_events_for_group_empty hor
    by_cases hge : g = ""
    · subst hge
      simp [get_current_event, get_next_event, get_events_between, hg]
    · rw [get_current_event_eq hg hge, get_next_event_eq hg hge,
        get_events_between_eq hg hge, he]
      simp

/-! Fetch-cycle preservation facts. -/

/-- The three query operations read only `group`, `schedule_date` and
`group_schedules`; states agreeing on those fields answer every query
identically. -/
theorem queries_congr {api api' : LoeApi} (hg : api'.group = api.group)
    (hd : api'.schedule_date = api.schedule_date)
    (hs : api'.group_schedules = api.group_schedules) :
    (∀ t, get_current_event api' t = get_current_event api t) ∧
    (∀ t, get_next_event api' t = get_next_event api t) ∧
    (∀ a b, get_events_between api' a b = get_events_between api a b) := by
  have hev : ∀ g, get_events_for_group api' g = get_events_for_group api g := by
    intro g
    unfold get_events_for_group
    rw [hd, hs]
  refine ⟨?_, ?_, ?_⟩
  · intro t
    unfold get_current_event
    rw [hg]
    cases api.group <;> simp [hev]
  · intro t
    unfold get_next_event
    rw [hg]
    cases api.group <;> simp [hev]
  · intro a b
    unfold get_events_between
    rw [hg]
    cases api.group <;> simp [hev]

/-- C4: a transport failure (caught client error — timeouts, connection
errors and non-2xx all raise `ClientError` subclasses — or a propagating
timeout) leaves `schedule_date`, `updated_on` and `group_schedules`
unchanged, so every subsequent `get_current_event`, `get_next_event` and
`get_events_between` result is identical to its pre-failure value. -/
theorem fetch_failure_preserves (scan : String → ScanResult)
    (api : LoeApi) (oc : FetchOutcome)
    (h : oc = FetchOutcome.clientError ∨ oc = FetchOutcome.timeoutError) :
    (fetch_schedule_data scan api oc).schedule_date = api.schedule_date ∧
    (fetch_schedule_data scan api oc).updated_on = api.updated_on ∧
    (fetch_schedule_data scan api oc).group_schedules =
      api.group_schedules ∧
    (∀ t, get_current_event (fetch_schedule_data scan api oc) t =
      get_current_event api t) ∧
    (∀ t, get_next_event (fetch_schedule_data scan api oc) t =
      get_next_event api t) ∧
    (∀ a b, get_events_between (fetch_schedule_data scan api oc) a b =
      get_events_between api a b) := by
  have hred : fetch_schedule_data scan api oc = { api with raw_data := none } ∨
      fetch_schedule_data scan api oc = api := by
    rcases h with rfl | rfl
    · exact Or.inl rfl
    · exact Or.inr rfl
  rcases hred with hred | hred <;>
    rw [hred] <;>
    exact ⟨rfl, rfl, rfl, (queries_congr rfl rfl rfl).1,
      (queries_congr rfl rfl rfl).2.1, (queries_congr rfl rfl rfl).2.2⟩

/-- `_extract_schedule_text` can only write `schedule_text`; the
configured group and the parsed snapshot fields pass through. -/
theorem extract_schedule_text_preserves (api : LoeApi) :
    (extract_schedule_text api).group = api.group ∧
    (extract_schedule_text api).schedule_date = api.schedule_date ∧
    (extract_schedule_text api).updated_on = api.updated_on ∧
    (extract_schedule_text api).group_schedules = api.group_schedules := by
  refine ⟨?_, ?_, ?_, ?_⟩ <;>
    (unfold extract_schedule_text; repeat' split) <;> rfl

/-- C5 (amended): when a fetch succeeds at transport level but the cycle
ends with no truthy schedule text (structure missing along
`hydra:member[0].menuItems[0]`, a falsy document, or extracted text that
normalizes to the empty string), the parser is not invoked and
`schedule_date`, `updated_on` and `group_schedules` retain their
previous values — the snapshot is all-absent only when it was already
all-absent (e.g. a fresh instance), not cleared. -/
theorem extraction_failure_preserves (scan : String → ScanResult)
    (api : LoeApi) (rd : RawData)
    (h : textTruthy
      ((extract_schedule_text
        { api with raw_data := some rd }).schedule_text) = false) :
    (fetch_schedule_data scan api (FetchOutcome.ok rd)).schedule_date =
      api.schedule_date ∧
    (fetch_schedule_data scan api (FetchOutcome.ok rd)).updated_on =
      api.updated_on ∧
    (fetch_schedule_data scan api (FetchOutcome.ok rd)).group_schedules =
      api.group_schedules := by
  have hred : fetch_schedule_data scan api (FetchOutcome.ok rd) =
      (if rawTruthy (some rd) then
        (if textTruthy
            ((extract_schedule_text
              { api with raw_data := some rd }).schedule_text) then
          parse_schedule_text scan
            (extract_schedule_text { api with raw_data := some rd })
        else
          extract_schedule_text { api with raw_data := some rd })
      else { api with raw_data := some rd }) := rfl
  rw [hred, h]
  have hp := extract_schedule_text_preserves { api with raw_data := some rd }
  cases rd with
  | emptyDoc =>
      simp [rawTruthy]
  | doc members =>
      simp only [rawTruthy, if_true, if_false, Bool.false_eq_true]
      exact ⟨hp.2.1, hp.2.2.1, hp.2.2.2⟩

/-! Midnight-crossing and invariant claims about the interval resolver. -/

/-- A state whose group `"1.1"` has the single degenerate raw pair
`("10:00", "10:00")` (equal start and end), with schedule date day 0. -/
def apiEqualPair : LoeApi :=
  { group := some "1.1"
    raw_data := none
    schedule_text := none
    schedule_date := some 0
    updated_on := none
    group_schedules := [("1.1", [(⟨10, 0⟩, ⟨10, 0⟩)])] }

/-- Evaluation of the degenerate-pair state: `("10:00", "10:00")` yields
the single zero-length event `[10:00, 10:00)` on day 0. -/
theorem apiEqualPair_events :
    get_events_for_group apiEqualPair "1.1" =
      [⟨OutageEventType.definite, 600, 600⟩] := by
  have ht : dictGet apiEqualPair.group_schedules "1.1" =
      some [(⟨10, 0⟩, ⟨10, 0⟩)] := by decide
  rw [get_events_for_group_eq rfl ht]
  have hfm : ([((⟨10, 0⟩ : TimeHM), (⟨10, 0⟩ : TimeHM))].filterMap
      (resolve_range 0)) = [⟨OutageEventType.definite, 600, 600⟩] := by
    decide
  rw [hfm, List.mergeSort_singleton]

/-- C1 (counterexample): for the raw pair `("10:00", "10:00")` the end
minutes value is numerically ≤ (equal to) the start value, yet
`get_events_for_group` resolves it to an event ending at 10:00 of the
base day — not at midnight of the following day — because the source
tests strict `<`, not `≤`. -/
theorem midnight_crossing_counterexample :
    get_events_for_group apiEqualPair "1.1" =
      [⟨OutageEventType.definite, 600, 600⟩] ∧
    ¬ ((600 : ℤ) = 1440 * (0 + 1)) := by
  exact ⟨apiEqualPair_events, by decide⟩

/-- C1 (amended): for every raw pair with valid components (hours at
most 24, minutes at most 59) whose end minutes value is strictly less
than the start value, or whose end string is exactly `"24:00"`, a group
holding that single pair resolves to exactly one event whose end is
midnight at the start of the day after the schedule date — never two
wrapped intervals. -/
theorem midnight_crossing_amended (d : ℤ) (grp : String) (s e : TimeHM)
    (hsh : s.hh ≤ 24) (hsm : s.mm ≤ 59)
    (hcross : time_str_to_minutes e < time_str_to_minutes s ∨
      (e.hh = 24 ∧ e.mm = 0)) :
    ∀ api : LoeApi, api.schedule_date = some d →
      dictGet api.group_schedules grp = some [(s, e)] →
      ∃ ev, get_events_for_group api grp = [ev] ∧
        ev.end_ = 1440 * (d + 1) := by
  intro api hd ht
  rw [get_events_for_group_eq hd ht]
  have hend : minutes_to_datetime 1440 d = some (1440 * (d + 1)) := by
    rw [minutes_to_datetime_eq]
    norm_num
  have hstart : ∃ x, minutes_to_datetime (time_str_to_minutes s) d =
      some x := by
    rw [minutes_to_datetime_eq]
    have h1 : time_str_to_minutes s / 60 ≤ 24 := by
      unfold time_str_to_minutes
      omega
    by_cases h2 : time_str_to_minutes s / 60 = 24
    · rw [if_pos h2]
      exact ⟨_, rfl⟩
    · rw [if_neg h2, if_pos (by omega)]
      exact ⟨_, rfl⟩
  obtain ⟨x, hx⟩ := hstart
  have hres : resolve_range d (s, e) =
      some ⟨OutageEventType.definite, x, 1440 * (d + 1)⟩ := by
    simp only [resolve_range, if_pos hcross]
    rw [hx, hend]
  refine ⟨⟨OutageEventType.definite, x, 1440 * (d + 1)⟩, ?_, rfl⟩
  rw [List.filterMap_cons, hres]
  simp [List.mergeSort_singleton]

/-- C7 (counterexample): the degenerate raw pair `("10:00", "10:00")`
produces an event with `start = end`, violating the strict invariant
`start < end` stated for `OutageEvent`. -/
theorem event_invariant_counterexample :
    ∃ e ∈ get_events_for_group apiEqualPair "1.1", ¬ (e.start < e.end_) := by
  refine ⟨⟨OutageEventType.definite, 600, 600⟩, ?_, by decide⟩
  rw [apiEqualPair_events]
  exact List.mem_singleton_self _

/-- C7 (amended): every `OutageEvent` produced by `get_events_for_group`
— for any raw range list and any schedule date — satisfies
`start ≤ end`; equality occurs exactly for degenerate raw pairs, so the
strict invariant `start < end` of the data model does not hold in
general. -/
theorem event_invariant_amended (api : LoeApi) (g : String) :
    ∀ e ∈ get_events_for_group api g, e.start ≤ e.end_ :=
  fun _ h => start_le_end_of_mem h

/-- C10: for every minutes value with hour component exactly 24
(1440 ≤ m < 1500) and every base date, `_minutes_to_datetime` returns
midnight at the start of the following day, discarding the minute
remainder. -/
theorem minutes_to_datetime_hour24 (m : ℕ) (d : ℤ)
    (h1 : 1440 ≤ m) (h2 : m < 1500) :
    minutes_to_datetime m d = some (1440 * (d + 1)) := by
  rw [minutes_to_datetime_eq, if_pos (by omega)]

/-! The duplicate-group behaviour of `_parse_schedule_text`. -/

/-- Lookup after a dict assignment: the assigned key reads back the new
value, other keys are untouched. -/
theorem dictGet_dictSet {V : Type} (d : List (String × V)) (k g : String)
    (v : V) :
    dictGet (dictSet d k v) g = if k = g then some v else dictGet d g := by
  induction d with
  | nil => simp [dictSet, dictGet]
  | cons hd tl ih =>
      obtain ⟨k', v'⟩ := hd
      by_cases h1 : k' = k
      · subst h1
        simp only [dictSet, if_pos rfl, dictGet]
        by_cases h2 : k' = g <;> simp [h2]
      · simp only [dictSet, if_neg h1, dictGet]
        by_cases h2 : k' = g
        · have h3 : ¬ k = g := fun h => h1 (h2.trans h.symm)
          simp [h2, h3]
        · simp [h2, ih]

/-- The dict produced by folding assignments over the match list reads,
at each key, the value of the key's last match — falling back to the
initial dict when the key never occurs. -/
theorem foldl_dictSet_lookup
    (ms : List (String × List (TimeHM × TimeHM)))
    (acc : List (String × List (TimeHM × TimeHM))) (g : String) :
    dictGet (ms.foldl (fun a m => dictSet a m.1 m.2) acc) g =
      (match (ms.filter (fun m => decide (m.1 = g))).getLast? with
        | some m => some m.2
        | none => dictGet acc g) := by
  induction ms generalizing acc with
  | nil => simp
  | cons m ms ih =>
      rw [List.foldl_cons, ih]
      by_cases hg : m.1 = g
      · cases hfl : (ms.filter (fun m' => decide (m'.1 = g))) with
        | nil =>
            simp [List.filter_cons, hg, hfl, dictGet_dictSet]
        | cons x xs =>
            have hy : (x :: xs).getLast? =
                some ((x :: xs).getLast (by simp)) :=
              List.getLast?_eq_getLast _ _
            simp [List.filter_cons, hg, hfl, List.getLast?_cons_cons, hy]
      · simp [List.filter_cons, hg, dictGet_dictSet]

/-- C9: when the match sequence contains two or more group sentences
with the same identifier, the rebuilt `group_schedules` dict records for
that identifier exactly the ranges of the last (latest-in-text)
occurrence; every earlier occurrence's ranges are discarded. -/
theorem duplicate_group_last_wins
    (ms : List (String × List (TimeHM × TimeHM))) (g : String)
    (h : 2 ≤ (ms.filter (fun m => decide (m.1 = g))).length) :
    dictGet (parse_group_schedules ms) g =
      ((ms.filter (fun m => decide (m.1 = g))).getLast?).map Prod.snd := by
  unfold parse_group_schedules
  rw [foldl_dictSet_lookup]
  cases hfl : (ms.filter (fun m => decide (m.1 = g))) with
  | nil => rw [hfl] at h; cases h
  | cons x xs =>
      have hy : (x :: xs).getLast? = some ((x :: xs).getLast (by simp)) :=
        List.getLast?_eq_getLast _ _
      simp [hy]

/-! Idempotence of the merge engine. -/

/-- Merging never changes the head event's start or kind: the head of
the output starts where the first input event starts. -/
theorem merge_head_invariant (rest : List OutageEvent) :
    ∀ e : OutageEvent, ∃ e' tl,
      merge_consecutive_outages (e :: rest) = e' :: tl ∧
      e'.start = e.start ∧ e'.event_type = e.event_type := by
  induction rest with
  | nil =>
      intro e
      exact ⟨e, [], by simp [merge_consecutive_outages], rfl, rfl⟩
  | cons e2 rest ih =>
      intro e
      by_cases hc : e.end_ = e2.start ∧ e.event_type = e2.event_type
      · obtain ⟨e', tl, heq, hs, ht⟩ :=
          ih ⟨e.event_type, e.start, e2.end_⟩
        refine ⟨e', tl, ?_, hs, ht⟩
        rw [merge_consecutive_outages, if_pos hc]
        exact heq
      · exact ⟨e, merge_consecutive_outages (e2 :: rest),
          by rw [merge_consecutive_outages, if_neg hc], rfl, rfl⟩

/-- The output of the merge engine is gap-separated: no adjacent pair of
output events has touching ends with the same kind. -/
theorem merge_output_separated (l : List OutageEvent) :
    List.Chain'
      (fun a b => ¬ (a.end_ = b.start ∧ a.event_type = b.event_type))
      (merge_consecutive_outages l) := by
  induction l using merge_consecutive_outages.induct with
  | case1 => simp [merge_consecutive_outages]
  | case2 e => simp [merge_consecutive_outages]
  | case3 e1 e2 rest hc ih =>
      rw [merge_consecutive_outages, if_pos hc]
      exact ih
  | case4 e1 e2 rest hc ih =>
      rw [merge_consecutive_outages, if_neg hc]
      obtain ⟨e', tl, heq, hs, ht⟩ := merge_head_invariant rest e2
      rw [List.chain'_cons']
      refine ⟨?_, ih⟩
      intro y hy
      rw [heq] at hy
      simp only [List.head?_cons, Option.mem_def, Option.some.injEq] at hy
      subst hy
      rw [hs, ht]
      exact hc

/-- The merge engine fixes every gap-separated sequence. -/
theorem merge_fixes_separated (l : List OutageEvent)
    (h : List.Chain'
      (fun a b => ¬ (a.end_ = b.start ∧ a.event_type = b.event_type)) l) :
    merge_consecutive_outages l = l := by
  induction l with
  | nil => simp [merge_consecutive_outages]
  | cons e1 tl ih =>
      cases tl with
      | nil => simp [merge_consecutive_outages]
      | cons e2 rest =>
          rw [List.chain'_cons] at h
          rw [merge_consecutive_outages, if_neg h.1, ih h.2]

/-- C8: the merge engine is idempotent — for every start-sorted event
sequence, merging the merged sequence yields the merged sequence
unchanged. -/
theorem merge_idempotent (xs : List OutageEvent)
    (_hsorted : xs.Sorted (fun a b => a.start ≤ b.start)) :
    merge_consecutive_outages (merge_consecutive_outages xs) =
      merge_consecutive_outages xs :=
  merge_fixes_separated _ (merge_output_separated xs)

/-! Concrete states for witnesses and counterexamples. -/

/-- A scan yielding nothing, for cycles whose parse outcome is
irrelevant. -/
def scanDemo : String → ScanResult := fun _ => ⟨none, none, []⟩

/-- A populated snapshot: group `"3.1"`, schedule date day 0, one raw
range `("09:00", "13:00")`. -/
def apiDemo : LoeApi :=
  { group := some "3.1"
    raw_data := none
    schedule_text := some "Text"
    schedule_date := some 0
    updated_on := none
    group_schedules := [("3.1", [(⟨9, 0⟩, ⟨13, 0⟩)])] }

/-- Evaluation of `apiDemo`: one event `[09:00, 13:00)` on day 0. -/
theorem apiDemo_events :
    get_events_for_group apiDemo "3.1" =
      [⟨OutageEventType.definite, 540, 780⟩] := by
  have ht : dictGet apiDemo.group_schedules "3.1" =
      some [(⟨9, 0⟩, ⟨13, 0⟩)] := by decide
  rw [get_events_for_group_eq rfl ht]
  have hfm : ([((⟨9, 0⟩ : TimeHM), (⟨13, 0⟩ : TimeHM))].filterMap
      (resolve_range 0)) = [⟨OutageEventType.definite, 540, 780⟩] := by
    decide
  rw [hfm, List.mergeSort_singleton]

/-- `apiDemo` with no extracted text (as after construction). -/
def apiNoText : LoeApi := { apiDemo with schedule_text := none }

/-- A populated snapshot with every parsed field present, about to
receive a cycle whose raw HTML is empty. -/
def apiPopulated : LoeApi :=
  { group := some "1.1"
    raw_data := some (RawData.doc [⟨[⟨"old"⟩]⟩])
    schedule_text := some "Text"
    schedule_date := some 20115
    updated_on := some 28965600
    group_schedules := [("1.1", [(⟨9, 0⟩, ⟨13, 0⟩)])] }

/-- A document whose first menu item holds an empty `rawHtml`. -/
def rdEmptyHtml : RawData := RawData.doc [⟨[⟨""⟩]⟩]

/-- The normalization pipeline maps the empty string to itself. -/
theorem normalizeHtml_empty : normalizeHtml "" = "" := by
  have h0 : stripTagsAux [] = [] := by simp [stripTagsAux]
  have h1 : collapseWsAux [] = [] := by simp [collapseWsAux]
  show String.mk
      (pyStrip (collapseWsAux (unescapeChars (stripTagsAux "".data)))) = ""
  rw [show "".data = [] from rfl, h0]
  rw [show unescapeChars [] = [] from rfl, h1]
  rfl

/-- C5 (counterexample): a transport-successful cycle whose raw HTML is
empty (so no schedule text can be extracted and the parser receives no
input) does not produce an all-absent snapshot: the previously parsed
`schedule_date`, `updated_on` and `group_schedules` survive
untouched. -/
theorem extraction_failure_counterexample :
    ¬ ((fetch_schedule_data scanDemo apiPopulated
          (FetchOutcome.ok rdEmptyHtml)).schedule_date = none ∧
       (fetch_schedule_data scanDemo apiPopulated
          (FetchOutcome.ok rdEmptyHtml)).updated_on = none ∧
       (fetch_schedule_data scanDemo apiPopulated
          (FetchOutcome.ok rdEmptyHtml)).group_schedules = []) := by
  have hext : extract_schedule_text
      { apiPopulated with raw_data := some rdEmptyHtml } =
      { apiPopulated with
          raw_data := some rdEmptyHtml
          schedule_text := some "" } := by
    simp [extract_schedule_text, rdEmptyHtml, normalizeHtml_empty]
  have hred : fetch_schedule_data scanDemo apiPopulated
      (FetchOutcome.ok rdEmptyHtml) =
      (if textTruthy
          ((extract_schedule_text
            { apiPopulated with
                raw_data := some rdEmptyHtml }).schedule_text) then
        parse_schedule_text scanDemo
          (extract_schedule_text
            { apiPopulated with raw_data := some rdEmptyHtml })
      else
        extract_schedule_text
          { apiPopulated with raw_data := some rdEmptyHtml }) := rfl
  rw [hred, hext]
  rintro ⟨h1, _, _⟩
  simp [textTruthy, apiPopulated] at h1

/-- Group `"5.2"` with the midnight-crossing raw pair
`("23:00", "02:00")` on day 0. -/
def apiCross : LoeApi :=
  { group := some "5.2"
    raw_data := none
    schedule_text := none
    schedule_date := some 0
    updated_on := none
    group_schedules := [("5.2", [(⟨23, 0⟩, ⟨2, 0⟩)])] }

/-- Witness for the amended C1 statement at the pair
`("23:00", "02:00")` on day 0. -/
theorem midnight_crossing_amended_witness :
    ∃ ev, get_events_for_group apiCross "5.2" = [ev] ∧
      ev.end_ = 1440 * (0 + 1) :=
  midnight_crossing_amended 0 "5.2" ⟨23, 0⟩ ⟨2, 0⟩ (by decide) (by decide)
    (Or.inl (by decide)) apiCross rfl (by decide)

/-- Witness for C2 at `apiDemo` and instant 10:00 of day 0. -/
theorem get_current_event_spec_witness :
    ((get_current_event apiDemo 600).isSome ↔
      ∃ e ∈ get_events_for_group apiDemo "3.1",
        e.start ≤ 600 ∧ 600 < e.end_) ∧
    (∀ e, get_current_event apiDemo 600 = some e →
      e ∈ get_events_for_group apiDemo "3.1" ∧
      e.start ≤ 600 ∧ 600 < e.end_ ∧
      ∀ e' ∈ get_events_for_group apiDemo "3.1",
        e'.start ≤ 600 → 600 < e'.end_ → e.start ≤ e'.start) :=
  get_current_event_spec apiDemo "3.1" 0 600 rfl (by decide) rfl

/-- Witness for C3 at `apiDemo` over the window `[0, 1440]` (day 0). -/
theorem get_events_between_spec_witness :
    (∀ e, e ∈ get_events_between apiDemo 0 1440 ↔
      e ∈ get_events_for_group apiDemo "3.1" ∧
      ¬ (e.end_ < 0) ∧ ¬ ((1440 : ℤ) < e.start)) ∧
    (get_events_between apiDemo 0 1440).Sorted
      (fun x y => x.start ≤ y.start) :=
  get_events_between_spec apiDemo "3.1" 0 1440 rfl (by decide) (by decide)

/-- Witness for C4: a caught client error at `apiDemo`. -/
theorem fetch_failure_preserves_witness :
    (fetch_schedule_data scanDemo apiDemo
      FetchOutcome.clientError).schedule_date = apiDemo.schedule_date ∧
    (fetch_schedule_data scanDemo apiDemo
      FetchOutcome.clientError).updated_on = apiDemo.updated_on ∧
    (fetch_schedule_data scanDemo apiDemo
      FetchOutcome.clientError).group_schedules =
        apiDemo.group_schedules ∧
    (∀ t, get_current_event
        (fetch_schedule_data scanDemo apiDemo FetchOutcome.clientError) t =
      get_current_event apiDemo t) ∧
    (∀ t, get_next_event
        (fetch_schedule_data scanDemo apiDemo FetchOutcome.clientError) t =
      get_next_event apiDemo t) ∧
    (∀ a b, get_events_between
        (fetch_schedule_data scanDemo apiDemo FetchOutcome.clientError)
        a b =
      get_events_between apiDemo a b) :=
  fetch_failure_preserves scanDemo apiDemo FetchOutcome.clientError
    (Or.inl rfl)

/-- Witness for the amended C5 statement: a falsy document arriving at a
state with no prior text leaves the parsed fields unchanged. -/
theorem extraction_failure_preserves_witness :
    (fetch_schedule_data scanDemo apiNoText
      (FetchOutcome.ok RawData.emptyDoc)).schedule_date =
        apiNoText.schedule_date ∧
    (fetch_schedule_data scanDemo apiNoText
      (FetchOutcome.ok RawData.emptyDoc)).updated_on =
        apiNoText.updated_on ∧
    (fetch_schedule_data scanDemo apiNoText
      (FetchOutcome.ok RawData.emptyDoc)).group_schedules =
        apiNoText.group_schedules :=
  extraction_failure_preserves scanDemo apiNoText RawData.emptyDoc
    (by decide)

/-- Witness for C6: a state with no configured group answers every query
with absent or empty. -/
theorem queries_degrade_witness :
    get_current_event (LoeApi.fresh none) 0 = none ∧
    get_next_event (LoeApi.fresh none) 0 = none ∧
    get_events_between (LoeApi.fresh none) 0 1440 = [] :=
  queries_degrade (LoeApi.fresh none) (Or.inl rfl) 0 0 1440

/-- Witness for the amended C7 statement at the event resolved from
`("09:00", "13:00")`. -/
theorem event_invariant_amended_witness :
    ((⟨OutageEventType.definite, 540, 780⟩ : OutageEvent).start ≤
      (⟨OutageEventType.definite, 540, 780⟩ : OutageEvent).end_) := by
  have hmem : (⟨OutageEventType.definite, 540, 780⟩ : OutageEvent) ∈
      get_events_for_group apiDemo "3.1" := by
    rw [apiDemo_events]
    exact List.mem_singleton_self _
  exact event_invariant_amended apiDemo "3.1" _ hmem

/-- A start-sorted sequence with two touching events and one separate. -/
def xsMerge : List OutageEvent :=
  [⟨OutageEventType.definite, 0, 60⟩,
   ⟨OutageEventType.definite, 60, 120⟩,
   ⟨OutageEventType.definite, 180, 240⟩]

/-- Witness for C8 at `xsMerge`. -/
theorem merge_idempotent_witness :
    merge_consecutive_outages (merge_consecutive_outages xsMerge) =
      merge_consecutive_outages xsMerge :=
  merge_idempotent xsMerge (by decide)

/-- A match sequence with a duplicated group identifier. -/
def msDup : List (String × List (TimeHM × TimeHM)) :=
  [("2.1", [(⟨1, 0⟩, ⟨2, 0⟩)]), ("2.1", [(⟨3, 0⟩, ⟨4, 0⟩)])]

/-- Witness for C9 at `msDup`: the second occurrence wins. -/
theorem duplicate_group_last_wins_witness :
    dictGet (parse_group_schedules msDup) "2.1" =
      ((msDup.filter (fun m => decide (m.1 = "2.1"))).getLast?).map
        Prod.snd :=
  duplicate_group_last_wins msDup "2.1" (by decide)

/-- Witness for C10 at minutes 1470 (raw `"24:30"`) on day 0. -/
theorem minutes_to_datetime_hour24_witness :
    minutes_to_datetime 1470 0 = some (1440 * (0 + 1)) :=
  minutes_to_datetime_hour24 1470 0 (by decide) (by decide)
